import Mathlib

/-!
Verification development for the probe side of the vectorized hash-join
operator (HashProbe.cpp). The definitions below are a shallow embedding of
the data model and the operations of the source file: build-row pointers
become `Option Nat` (`none` models `nullptr`), selectivity vectors become
`Nat → Bool` predicates, and the scratch arrays `outputRows_` /
`rawMapping` become total functions mutated by explicit functional update,
preserving the exact read/write order of the source. External collaborators
(hash table, expression evaluator, vectors) enter as parameters. The two
small helper structs `NoMatchDetector` and `LeftSemiJoinTracker` are
declared in HashProbe.h, which is not part of the sources; they are
modelled from the specification text, as marked in their doc comments.
-/

namespace Velox

/-- Join types handled by the probe operator (core::JoinType). -/
inductive JoinType where
  | inner
  | left
  | right
  | full
  | leftSemi
  | rightSemi
  | nullAwareAnti
deriving DecidableEq, BEq, Repr

/-- core::isInnerJoin. -/
def isInnerJoin (t : JoinType) : Bool := t == JoinType.inner

/-- core::isLeftJoin. -/
def isLeftJoin (t : JoinType) : Bool := t == JoinType.left

/-- core::isRightJoin. -/
def isRightJoin (t : JoinType) : Bool := t == JoinType.right

/-- core::isFullJoin. -/
def isFullJoin (t : JoinType) : Bool := t == JoinType.full

/-- core::isLeftSemiJoin. -/
def isLeftSemiJoin (t : JoinType) : Bool := t == JoinType.leftSemi

/-- core::isRightSemiJoin. -/
def isRightSemiJoin (t : JoinType) : Bool := t == JoinType.rightSemi

/-- core::isNullAwareAntiJoin. -/
def isNullAwareAntiJoin (t : JoinType) : Bool := t == JoinType.nullAwareAnti

/-- Result delivered by the join bridge (HashJoinBridge::tableOrFuture):
the flag set by the build when an anti join saw null keys, and the number
of distinct rows of the built table. -/
structure BuildResult where
  antiJoinHasNullKeys : Bool
  numDistinct : Nat
deriving DecidableEq, Repr

/-- Blocking reasons returned by HashProbe::isBlocked. -/
inductive BlockingReason where
  | kNotBlocked
  | kWaitForJoinBuild
deriving DecidableEq, Repr

/-- Observable outcome of one HashProbe::isBlocked call: the returned
reason, the value of finished_ afterwards (what isFinished() reports), and
whether table_ was stored. -/
structure BlockedOutcome where
  reason : BlockingReason
  finished : Bool
  tableStored : Bool
deriving DecidableEq, Repr

/-- HashProbe::isBlocked (HashProbe.cpp lines 196 to 248), acquisition
step, assuming table_ is not yet set. `res` is what tableOrFuture yields
(`none` means only a future). Returns `none` exactly when the
VELOX_CHECK at line 213 would abort (antiJoinHasNullKeys reported for a
join that is not null-aware anti). Dynamic-filter creation in the
remaining branch touches neither finished_ nor the stored table and is
not represented. -/
def isBlockedModel (jt : JoinType) (res : Option BuildResult) : Option BlockedOutcome :=
  match res with
  | none => some { reason := .kWaitForJoinBuild, finished := false, tableStored := false }
  | some r =>
    if r.antiJoinHasNullKeys then
      if isNullAwareAntiJoin jt then
        some { reason := .kNotBlocked, finished := true, tableStored := false }
      else none
    else
      if r.numDistinct == 0 &&
          (isInnerJoin jt || isLeftSemiJoin jt || isRightJoin jt || isRightSemiJoin jt) then
        some { reason := .kNotBlocked, finished := true, tableStored := true }
      else
        some { reason := .kNotBlocked, finished := false, tableStored := true }

/-- HashProbe::clearDynamicFilters (lines 250 to 261): the join can be
replaced by the pushed-down filter only for a single key channel, no
duplicate keys in the table, no build-side result projections, no residual
filter, and at least one dynamic filter actually produced. -/
def canReplaceWithDynamicFilter (numKeyChannels : Nat) (hasDuplicateKeys : Bool)
    (numTableResultProjections : Nat) (hasFilter : Bool) (numDynamicFilters : Nat) : Bool :=
  numKeyChannels == 1 && !hasDuplicateKeys && numTableResultProjections == 0 &&
    !hasFilter && numDynamicFilters != 0

/-- addInput lines 266 to 269 set replacedWithDynamicFilter_ exactly when
canReplaceWithDynamicFilter_ holds, and getOutput line 450 passes the
batch through unprocessed exactly when replacedWithDynamicFilter_ holds. -/
def batchPassedThrough (canReplace : Bool) : Bool := canReplace

/-- getOutput lines 481 to 490: mapping construction for the null-aware
anti join without a residual filter on a non-empty build side. Appending
to the list models the write mapping[numOut++] = i (capacity is inputSize
in this mode, see lines 466 to 470). `hits` is lookup_->hits. -/
def antiNoFilterMapping (inputSize : Nat) (nonNullRows activeRows : Nat → Bool)
    (hits : Nat → Option Nat) : List Nat :=
  (List.range inputSize).foldl
    (fun mapping i =>
      if nonNullRows i && (!(activeRows i) || (hits i).isNone) then mapping ++ [i]
      else mapping) []

/-- Predicate of the anti-no-filter emission (line 485 to 486). -/
def antiNoFilterPred (nonNullRows activeRows : Nat → Bool) (hits : Nat → Option Nat)
    (i : Nat) : Bool :=
  nonNullRows i && (!(activeRows i) || (hits i).isNone)

/-- activeRows_ starts as a copy of nonNullRows_ (line 290) and
lookupValueIds may only deselect further rows (line 297); `keep` models
the rows it retains. -/
def activeRow (nonNull keep : Nat → Bool) (i : Nat) : Bool := nonNull i && keep i

/-- The join modes that keep probe rows without a match (line 316 to 317). -/
def isOuterish (jt : JoinType) : Bool :=
  isLeftJoin jt || isFullJoin jt || isNullAwareAntiJoin jt

/-- Observable outcome of HashProbe::addInput: the final lookup_->rows and
lookup_->hits, whether input_ is still held at exit, and whether
joinProbe ran. -/
structure AddInputOutcome where
  lookupRows : List Nat
  lookupHits : List (Option Nat)
  inputRetained : Bool
  probedTable : Bool
deriving DecidableEq, Repr

/-- HashProbe::addInput (lines 263 to 344) after the dynamic-filter and
empty-build early returns (so table_->numDistinct() > 0 and
canReplaceWithDynamicFilter_ is false). `probeHit i` is the hit that
BaseHashTable::joinProbe stores for active row i; `stale i` is whatever
the reused hits buffer holds at a position joinProbe does not write. For
left, full and null-aware anti joins the hits buffer is sized to the
input and prefilled with nullptr before probing (lines 322 to 325) and
rows is then expanded to all of the input (lines 331 to 334); otherwise
rows is the (ascending) active list, the batch is dropped when it is
empty (lines 336 to 339), and hits is sized to rows.back() + 1
(line 340). -/
def addInputModel (jt : JoinType) (inputSize : Nat) (nonNull keep : Nat → Bool)
    (probeHit : Nat → Option Nat) (stale : Nat → Option Nat) : AddInputOutcome :=
  let act := activeRow nonNull keep
  let actList := (List.range inputSize).filter act
  if isOuterish jt then
    { lookupRows := List.range inputSize,
      lookupHits := (List.range inputSize).map (fun i => if act i then probeHit i else none),
      inputRetained := true,
      probedTable := !actList.isEmpty }
  else if actList.isEmpty then
    { lookupRows := [], lookupHits := [], inputRetained := false, probedTable := false }
  else
    { lookupRows := actList,
      lookupHits := (List.range (actList.getLastD 0 + 1)).map
        (fun i => if act i then probeHit i else stale i),
      inputRetained := true,
      probedTable := true }

/-- getOutput lines 431 to 445 when input_ == nullptr: for right, full and
right-semi joins after noMoreInput on the last probe driver the build-side
output is produced (finished_ set when it is exhausted); otherwise the
call returns nullptr, setting finished_ if noMoreInput_. `buildSideBatch`
models getBuildSideOutput(). Result is (returned batch, finished_). -/
def getOutputNoInput (jt : JoinType) (noMoreInput lastProbe : Bool)
    (buildSideBatch : Option Nat) : Option Nat × Bool :=
  if noMoreInput && (isRightJoin jt || isFullJoin jt || isRightSemiJoin jt) && lastProbe then
    (buildSideBatch, buildSideBatch.isNone)
  else
    (none, noMoreInput)

/-- Scratch state mutated by HashProbe::evalFilter: the outputRows_ array
of build-row pointers (`none` models nullptr), the rawMapping array of
probe-row numbers, and the numPassed counter. Arrays are total functions;
the code only touches indices below the buffer capacity. -/
structure EFState where
  outR : Nat → Option Nat
  map : Nat → Nat
  numPassed : Nat

/-- The addMiss / addLastMatch lambda (lines 680 to 683, 729 to 732,
746 to 749): outputRows_[numPassed] = nullptr;
rawMapping[numPassed++] = row. -/
def writeMiss (s : EFState) (row : Nat) : EFState :=
  { outR := fun k => if k = s.numPassed then none else s.outR k,
    map := fun k => if k = s.numPassed then row else s.map k,
    numPassed := s.numPassed + 1 }

/-- The passing case of the compaction loops (lines 737 to 740, 764 to
767): outputRows_[numPassed] = outputRows_[i];
rawMapping[numPassed++] = rawMapping[i]. The reads are from the current
arrays, after any miss just flushed for this pair. -/
def writePass (s : EFState) (i : Nat) : EFState :=
  { outR := fun k => if k = s.numPassed then s.outR i else s.outR k,
    map := fun k => if k = s.numPassed then s.map i else s.map k,
    numPassed := s.numPassed + 1 }

/-- Applies an optional flushed miss. -/
def applyMiss (s : EFState) : Option Nat → EFState
  | none => s
  | some row => writeMiss s row

/-- Modelled from the spec: NoMatchDetector is declared in HashProbe.h,
which is not among the sources. Per the spec it tracks the current
probe-row id, noting whether any pair has passed, and on row-id change it
flushes a synthetic miss if none passed. State none models
currentRow == -1. Returns (flushed miss, new state). -/
def nmAdvance (d : Option (Nat × Bool)) (row : Nat) (m : Bool) :
    Option Nat × Option (Nat × Bool) :=
  match d with
  | none => (none, some (row, m))
  | some (r, p) =>
    if r = row then (none, some (r, p || m))
    else ((if p then none else some r), some (row, m))

/-- Modelled from the spec: the final flush of NoMatchDetector, performed
when the results cursor is at end; the state resets afterwards. -/
def nmFinish (d : Option (Nat × Bool)) : Option Nat :=
  match d with
  | some (r, false) => some r
  | _ => none

/-- Modelled from the spec: LeftSemiJoinTracker is declared in
HashProbe.h, which is not among the sources. Per the spec it emits at
most one output per probe row, the row qualifying on the first pair whose
filter passes; advance is called once per passing pair and emits the
previously tracked row when the row id changes, finish emits the last
tracked row. Returns (emitted row, new state). -/
def lsAdvance (t : Option Nat) (row : Nat) : Option Nat × Option Nat :=
  match t with
  | none => (none, some row)
  | some c => if c = row then (none, some c) else (some c, some row)

/-- Line 734 to 735 and analogues: a pair passes the residual filter iff
the decoded result is non-null and true. -/
def pairPassed (res : Nat → Option Bool) (i : Nat) : Bool := res i == some true

/-- One iteration of the left/full outer compaction loop
(lines 733 to 741). -/
def lfStep (p : Nat → Bool) (sd : EFState × Option (Nat × Bool)) (i : Nat) :
    EFState × Option (Nat × Bool) :=
  let passed := p i
  let row := sd.1.map i
  let md := nmAdvance sd.2 row passed
  let s1 := applyMiss sd.1 md.1
  (if passed then writePass s1 i else s1, md.2)

/-- Left/full outer branch of evalFilter (lines 726 to 744), including the
final flush when results_.atEnd(). -/
def lfRun (p : Nat → Bool) (numRows : Nat) (atEnd : Bool) (s0 : EFState)
    (d0 : Option (Nat × Bool)) : EFState × Option (Nat × Bool) :=
  let r := (List.range numRows).foldl (lfStep p) (s0, d0)
  if atEnd then (applyMiss r.1 (nmFinish r.2), none) else r

/-- One iteration of the left-semi loop (lines 750 to 755): the tracker
advances only on passing pairs. -/
def lsStep (p : Nat → Bool) (st : EFState × Option Nat) (i : Nat) : EFState × Option Nat :=
  if p i then
    let row := st.1.map i
    let et := lsAdvance st.2 row
    (applyMiss st.1 et.1, et.2)
  else st

/-- Left-semi branch of evalFilter (lines 745 to 758), including the final
flush when results_.atEnd(). -/
def lsRun (p : Nat → Bool) (numRows : Nat) (atEnd : Bool) (s0 : EFState)
    (t0 : Option Nat) : EFState × Option Nat :=
  let r := (List.range numRows).foldl (lsStep p) (s0, t0)
  if atEnd then (applyMiss r.1 r.2, none) else r

/-- One iteration of the default (inner, right, right-semi) compaction
loop (lines 762 to 768). -/
def dfStep (p : Nat → Bool) (s : EFState) (i : Nat) : EFState :=
  if p i then writePass s i else s

/-- Default branch of evalFilter (lines 761 to 769). -/
def dfRun (p : Nat → Bool) (numRows : Nat) (s0 : EFState) : EFState :=
  (List.range numRows).foldl (dfStep p) s0

/-- Inputs of the null-aware anti filter interpretation that come from
outside evalFilter: whether the filter propagates nulls, which pairs have
a null filter-input probe column (nullFilterProbeInputRows_), which probe
rows have all join keys non-null (nonNullRows_), and the build-side row
container with its null-key classification. -/
structure AntiParams where
  propagatesNulls : Bool
  nullProbeInput : Nat → Bool
  nonNullRow : Nat → Bool
  buildRows : List Nat
  buildNullKey : Nat → Bool

/-- Lines 654 to 668: pair i is added to skipRows when null propagation
already eliminates its probe row, or when the probe row has non-null keys
and the pair's filter result is non-null true. `map0` is the pristine
rawMapping (the classification loop runs before any write). -/
def antiSkipPair (p : Nat → Bool) (a : AntiParams) (map0 : Nat → Nat) (i : Nat) : Bool :=
  if a.propagatesNulls && a.nullProbeInput i then true
  else if a.nonNullRow (map0 i) then p i
  else false

/-- Lines 670 to 674: probe row j is cleared from both test sets when some
pair of j is in skipRows. -/
def antiInSkipSet (p : Nat → Bool) (a : AntiParams) (map0 : Nat → Nat)
    (numRows j : Nat) : Bool :=
  (List.range numRows).any (fun i => map0 i == j && antiSkipPair p a map0 i)

/-- Lines 658 to 664: probe row j enters testNullKeyRows when one of its
pairs has non-null keys and a filter result that is not non-null true
(null or false), and null propagation does not skip that pair. -/
def antiTestNullKeySet (p : Nat → Bool) (a : AntiParams) (map0 : Nat → Nat)
    (numRows j : Nat) : Bool :=
  (List.range numRows).any (fun i =>
    map0 i == j && !(a.propagatesNulls && a.nullProbeInput i) && a.nonNullRow j && !(p i))

/-- Lines 665 to 667: probe row j enters testAllRows when one of its pairs
has a null join key (j not in nonNullRows_) and null propagation does not
skip that pair. -/
def antiTestAllSet (_p : Nat → Bool) (a : AntiParams) (map0 : Nat → Nat)
    (numRows j : Nat) : Bool :=
  (List.range numRows).any (fun i =>
    map0 i == j && !(a.propagatesNulls && a.nullProbeInput i) && !(a.nonNullRow j))

/-- testFilterOnBuildSide (lines 585 to 645): probe row j is eliminated
when some build row in scope (null-key rows only, or all rows) evaluates
the filter to non-null true. The kBatchSize pages of the row container
union to an existence over all rows, since elimination only shrinks the
set. `bp j r` is the decoded filter value of probe row j against build
row r being non-null true. -/
def buildSideTestPasses (bp : Nat → Nat → Bool) (a : AntiParams) (nullKeyRowsOnly : Bool)
    (j : Nat) : Bool :=
  a.buildRows.any (fun r => (!nullKeyRowsOnly || a.buildNullKey r) && bp j r)

/-- Membership of j in testNullKeyRows after the skip subtraction and the
null-key build-side test (lines 675 to 676). -/
def antiTestNullKeyFinal (p : Nat → Bool) (bp : Nat → Nat → Bool) (a : AntiParams)
    (map0 : Nat → Nat) (numRows j : Nat) : Bool :=
  antiTestNullKeySet p a map0 numRows j && !(antiInSkipSet p a map0 numRows j) &&
    !(buildSideTestPasses bp a true j)

/-- Membership of j in testAllRows after the skip subtraction and the
all-rows build-side test (lines 677 to 678). -/
def antiTestAllFinal (p : Nat → Bool) (bp : Nat → Nat → Bool) (a : AntiParams)
    (map0 : Nat → Nat) (numRows j : Nat) : Bool :=
  antiTestAllSet p a map0 numRows j && !(antiInSkipSet p a map0 numRows j) &&
    !(buildSideTestPasses bp a false j)

/-- Lines 684 to 698: the per-pair pass decision of the final anti loop,
with j the probe row read from the current rawMapping. passed here means
a match was found, eliminating j from anti emission. -/
def antiPassedPair (p : Nat → Bool) (bp : Nat → Nat → Bool) (a : AntiParams)
    (map0 : Nat → Nat) (numRows j i : Nat) : Bool :=
  if a.propagatesNulls && a.nullProbeInput i then false
  else if a.nonNullRow j then
    p i || !(antiTestNullKeyFinal p bp a map0 numRows j)
  else !(antiTestAllFinal p bp a map0 numRows j)

/-- One iteration of the final anti loop (lines 684 to 700): rows that
never pass are emitted as misses through the NoMatchDetector. -/
def antiStep (p : Nat → Bool) (bp : Nat → Nat → Bool) (a : AntiParams)
    (map0 : Nat → Nat) (numRows : Nat) (sd : EFState × Option (Nat × Bool))
    (i : Nat) : EFState × Option (Nat × Bool) :=
  let j := sd.1.map i
  let passed := antiPassedPair p bp a map0 numRows j i
  let md := nmAdvance sd.2 j passed
  (applyMiss sd.1 md.1, md.2)

/-- evalFilterInNullAwareAntiJoin (lines 647 to 705): classification over
the pristine mapping, build-side tests, then the miss-emitting loop with
the final flush when results_.atEnd(). -/
def antiRun (p : Nat → Bool) (bp : Nat → Nat → Bool) (a : AntiParams) (numRows : Nat)
    (atEnd : Bool) (s0 : EFState) (d0 : Option (Nat × Bool)) :
    EFState × Option (Nat × Bool) :=
  let r := (List.range numRows).foldl (antiStep p bp a s0.map numRows) (s0, d0)
  if atEnd then (applyMiss r.1 (nmFinish r.2), none) else r

/-- Decoded build-side test value counts as a pass iff non-null true
(line 635 to 637). -/
def buildPassOf (bev : Nat → Nat → Option Bool) (j r : Nat) : Bool := bev j r == some true

/-- Result of one evalFilter call: the scratch state (its numPassed field
is the returned numPassed) and the detector / tracker states that persist
in the operator across calls. -/
structure EvalFilterResult where
  st : EFState
  det : Option (Nat × Bool)
  tracker : Option Nat

/-- HashProbe::evalFilter (lines 707 to 771), dispatching on the join
type, parameterized over boolean pass predicates. Without a filter the
call returns numRows and writes nothing. -/
def evalFilterRun (jt : JoinType) (hasFilter : Bool) (p : Nat → Bool)
    (bp : Nat → Nat → Bool) (a : AntiParams) (numRows : Nat) (atEnd : Bool)
    (outR0 : Nat → Option Nat) (map0 : Nat → Nat) (d0 : Option (Nat × Bool))
    (t0 : Option Nat) : EvalFilterResult :=
  let s0 : EFState := { outR := outR0, map := map0, numPassed := 0 }
  if !hasFilter then { st := { s0 with numPassed := numRows }, det := d0, tracker := t0 }
  else if isLeftJoin jt || isFullJoin jt then
    let r := lfRun p numRows atEnd s0 d0
    { st := r.1, det := r.2, tracker := t0 }
  else if isLeftSemiJoin jt then
    let r := lsRun p numRows atEnd s0 t0
    { st := r.1, det := d0, tracker := r.2 }
  else if isNullAwareAntiJoin jt then
    let r := antiRun p bp a numRows atEnd s0 d0
    { st := r.1, det := r.2, tracker := t0 }
  else
    { st := dfRun p numRows s0, det := d0, tracker := t0 }

/-- HashProbe::evalFilter over decoded Option Bool filter results: a pair
or build-side test passes iff its decoded value is non-null true. -/
def evalFilterModel (jt : JoinType) (hasFilter : Bool) (res : Nat → Option Bool)
    (bev : Nat → Nat → Option Bool) (a : AntiParams) (numRows : Nat) (atEnd : Bool)
    (outR0 : Nat → Option Nat) (map0 : Nat → Nat) (d0 : Option (Nat × Bool))
    (t0 : Option Nat) : EvalFilterResult :=
  evalFilterRun jt hasFilter (pairPassed res) (buildPassOf bev) a numRows atEnd
    outR0 map0 d0 t0

/-- getOutput lines 516 to 520: setProbedFlag(outputRows_.data(), numOut)
runs for right, full and right-semi joins only. The build rows marked are
the non-null entries of the prefix; null entries are padded misses, not
build rows (RowContainer::setProbedFlag is outside the sources; per the
spec setProbed marks build rows, and nullptr is not a build row). -/
def probedFlagWrites (jt : JoinType) (st : EFState) : List Nat :=
  if isRightJoin jt || isFullJoin jt || isRightSemiJoin jt then
    (List.range st.numPassed).filterMap st.outR
  else []

/-- The probe-row numbers of the first numPassed entries of rawMapping. -/
def emittedRows (st : EFState) : List Nat := (List.range st.numPassed).map st.map

/-- The (probe row, build-row pointer) pairs of the first numPassed
entries of the scratch arrays, the rows an output batch is built from. -/
def emittedPairs (st : EFState) : List (Nat × Option Nat) :=
  (List.range st.numPassed).map (fun k => (st.map k, st.outR k))

/-- Pure left-semi tracker step used to characterize lsRun: folds a row
into (emitted so far, tracker). -/
def lsAdvFold (s : List Nat × Option Nat) (row : Nat) : List Nat × Option Nat :=
  let et := lsAdvance s.2 row
  (s.1 ++ et.1.toList, et.2)

/-- Emissions of the left-semi tracker over a row sequence including the
final flush. -/
def lsCollect : Option Nat → List Nat → List Nat
  | t, [] => t.toList
  | none, row :: rest => lsCollect (some row) rest
  | some c, row :: rest =>
    if c = row then lsCollect (some c) rest else c :: lsCollect (some row) rest

/-- Probe-row values of the passing pairs, in pair order. -/
def passVals (p : Nat → Bool) (map0 : Nat → Nat) (numRows : Nat) : List Nat :=
  ((List.range numRows).filter p).map map0

/-- Replaces a null decoded filter result by false. -/
def squashNull : Option Bool → Option Bool
  | none => some false
  | some b => some b

/-- Potential of a NoMatchDetector state: one pending miss at most. -/
def phiD : Option (Nat × Bool) → Nat
  | some (_, false) => 1
  | _ => 0

/-- Potential of a LeftSemiJoinTracker state: one pending emission at
most. -/
def phiT : Option Nat → Nat
  | some _ => 1
  | none => 0

/-! Helper lemmas. -/

theorem foldlInv {α β : Type} {P : β → Prop} (f : β → α → β) :
    ∀ (l : List α), (∀ s a, a ∈ l → P s → P (f s a)) → ∀ s, P s → P (l.foldl f s) := by
  intro l
  induction l with
  | nil => intro _ s hs; exact hs
  | cons a t ih =>
    intro h s hs
    exact ih (fun s' b hb => h s' b (List.mem_cons_of_mem a hb)) _
      (h s a (List.mem_cons_self a t) hs)

theorem foldlRangeSucc {β : Type} (f : β → Nat → β) (n : Nat) (s : β) :
    (List.range (n + 1)).foldl f s = f ((List.range n).foldl f s) n := by
  rw [List.range_succ, List.foldl_append, List.foldl_cons, List.foldl_nil]

theorem foldl_filterAppend {α : Type} (p : α → Bool) :
    ∀ (l : List α) (acc : List α),
      l.foldl (fun acc' a => if p a then acc' ++ [a] else acc') acc = acc ++ l.filter p := by
  intro l
  induction l with
  | nil => intro acc; simp
  | cons a t ih =>
    intro acc
    rw [List.foldl_cons, ih, List.filter_cons]
    by_cases h : p a
    · simp [h]
    · simp [h]

/-! C1. -/

/-- C1: for a null-aware anti join with no residual filter and a non-empty
build side, the mapping built by getOutput holds exactly the input rows i
with nonNullRows[i] and (not activeRows[i] or hits[i] null), in ascending
order, and numOut is their count. -/
theorem claim_C1 (inputSize : Nat) (nonNullRows activeRows : Nat → Bool)
    (hits : Nat → Option Nat) :
    antiNoFilterMapping inputSize nonNullRows activeRows hits =
      (List.range inputSize).filter (antiNoFilterPred nonNullRows activeRows hits) ∧
    (antiNoFilterMapping inputSize nonNullRows activeRows hits).Pairwise (· < ·) ∧
    (antiNoFilterMapping inputSize nonNullRows activeRows hits).length =
      (List.range inputSize).countP (antiNoFilterPred nonNullRows activeRows hits) := by
  have hmain : antiNoFilterMapping inputSize nonNullRows activeRows hits =
      (List.range inputSize).filter (antiNoFilterPred nonNullRows activeRows hits) := by
    unfold antiNoFilterMapping
    have := foldl_filterAppend (antiNoFilterPred nonNullRows activeRows hits)
      (List.range inputSize) []
    simpa [antiNoFilterPred] using this
  refine ⟨hmain, ?_, ?_⟩
  · rw [hmain]
    exact (List.sorted_lt_range inputSize).filter _
  · rw [hmain, List.countP_eq_length_filter]

/-! C5. -/

/-- C5: once isBlocked obtains the build result, (a) anti-join-has-null
keys (null-aware anti join) or (b) an empty table with an inner, left
semi, right or right semi join finish the operator with kNotBlocked; in
every other case the table is stored and the operator keeps running. -/
theorem claim_C5 (jt : JoinType) (r : BuildResult) :
    (r.antiJoinHasNullKeys = true → jt = JoinType.nullAwareAnti →
      isBlockedModel jt (some r) =
        some { reason := .kNotBlocked, finished := true, tableStored := false }) ∧
    (r.antiJoinHasNullKeys = false → r.numDistinct = 0 →
      (isInnerJoin jt || isLeftSemiJoin jt || isRightJoin jt || isRightSemiJoin jt) = true →
      isBlockedModel jt (some r) =
        some { reason := .kNotBlocked, finished := true, tableStored := true }) ∧
    (r.antiJoinHasNullKeys = false →
      ¬(r.numDistinct = 0 ∧
        (isInnerJoin jt || isLeftSemiJoin jt || isRightJoin jt || isRightSemiJoin jt) = true) →
      isBlockedModel jt (some r) =
        some { reason := .kNotBlocked, finished := false, tableStored := true }) := by
  refine ⟨?_, ?_, ?_⟩
  · intro ha hjt
    subst hjt
    simp only [isBlockedModel, ha, if_true]
    rfl
  · intro ha hd hjoin
    simp [isBlockedModel, ha, hd, hjoin]
  · intro ha hnot
    have hfalse : (r.numDistinct == 0 &&
        (isInnerJoin jt || isLeftSemiJoin jt || isRightJoin jt || isRightSemiJoin jt)) = false := by
      cases hb : (r.numDistinct == 0 &&
          (isInnerJoin jt || isLeftSemiJoin jt || isRightJoin jt || isRightSemiJoin jt)) with
      | false => rfl
      | true =>
        rw [Bool.and_eq_true] at hb
        exact absurd ⟨beq_iff_eq.mp hb.1, hb.2⟩ hnot
    simp [isBlockedModel, ha, hfalse]

/-- C5 witness: concrete instantiation of each case. -/
theorem claim_C5_witness :
    isBlockedModel JoinType.nullAwareAnti (some ⟨true, 5⟩) =
      some { reason := .kNotBlocked, finished := true, tableStored := false } ∧
    isBlockedModel JoinType.inner (some ⟨false, 0⟩) =
      some { reason := .kNotBlocked, finished := true, tableStored := true } ∧
    isBlockedModel JoinType.left (some ⟨false, 0⟩) =
      some { reason := .kNotBlocked, finished := false, tableStored := true } :=
  ⟨(claim_C5 JoinType.nullAwareAnti ⟨true, 5⟩).1 rfl rfl,
   (claim_C5 JoinType.inner ⟨false, 0⟩).2.1 rfl rfl (by decide),
   (claim_C5 JoinType.left ⟨false, 0⟩).2.2 rfl (by decide)⟩

/-! C7. -/

/-- C7: canReplaceWithDynamicFilter is set only if there is exactly one
key channel, no duplicate keys, no build-side result projections and no
residual filter; when any of these fails, batches are not passed through
unprocessed. -/
theorem claim_C7 (numKeyChannels : Nat) (hasDuplicateKeys : Bool)
    (numTableResultProjections : Nat) (hasFilter : Bool) (numDynamicFilters : Nat) :
    (canReplaceWithDynamicFilter numKeyChannels hasDuplicateKeys numTableResultProjections
        hasFilter numDynamicFilters = true →
      numKeyChannels = 1 ∧ hasDuplicateKeys = false ∧ numTableResultProjections = 0 ∧
        hasFilter = false) ∧
    (¬(numKeyChannels = 1 ∧ hasDuplicateKeys = false ∧ numTableResultProjections = 0 ∧
        hasFilter = false) →
      batchPassedThrough (canReplaceWithDynamicFilter numKeyChannels hasDuplicateKeys
        numTableResultProjections hasFilter numDynamicFilters) = false) := by
  have hkey : canReplaceWithDynamicFilter numKeyChannels hasDuplicateKeys
      numTableResultProjections hasFilter numDynamicFilters = true →
      numKeyChannels = 1 ∧ hasDuplicateKeys = false ∧ numTableResultProjections = 0 ∧
        hasFilter = false := by
    intro h
    unfold canReplaceWithDynamicFilter at h
    rw [Bool.and_eq_true, Bool.and_eq_true, Bool.and_eq_true, Bool.and_eq_true] at h
    obtain ⟨⟨⟨⟨h1, h2⟩, h3⟩, h4⟩, -⟩ := h
    exact ⟨beq_iff_eq.mp h1, by simpa using h2, beq_iff_eq.mp h3, by simpa using h4⟩
  refine ⟨hkey, ?_⟩
  · intro hnot
    cases hcan : canReplaceWithDynamicFilter numKeyChannels hasDuplicateKeys
        numTableResultProjections hasFilter numDynamicFilters with
    | false => rfl
    | true => exact absurd (hkey hcan) hnot

/-- C7 witness: with a residual filter present the pass-through path is
not taken even when all other conditions hold. -/
theorem claim_C7_witness :
    batchPassedThrough (canReplaceWithDynamicFilter 1 false 0 true 2) = false :=
  (claim_C7 1 false 0 true 2).2 (by simp)

/-! C8 and C9. -/

theorem pairwiseLtFilterRange (p : Nat → Bool) (n : Nat) :
    ((List.range n).filter p).Pairwise (· < ·) :=
  (List.sorted_lt_range n).filter p

theorem leGetLastDAux :
    ∀ (t : List Nat) (a : Nat), (a :: t).Pairwise (· ≤ ·) →
      ∀ x ∈ a :: t, x ≤ t.getLastD a := by
  intro t
  induction t with
  | nil =>
    intro a _ x hx
    rcases List.mem_cons.mp hx with rfl | hx
    · exact Nat.le_refl x
    · cases hx
  | cons b t2 ih =>
    intro a hp x hx
    rw [List.getLastD_cons]
    have hp' : (b :: t2).Pairwise (· ≤ ·) := (List.pairwise_cons.mp hp).2
    rcases List.mem_cons.mp hx with rfl | hxt
    · have hab : x ≤ b := (List.pairwise_cons.mp hp).1 b (List.mem_cons_self b t2)
      exact Nat.le_trans hab (ih b hp' b (List.mem_cons_self b t2))
    · exact ih b hp' x hxt

theorem leGetLastD (l : List Nat) (hl : l.Pairwise (· ≤ ·)) :
    ∀ x ∈ l, x ≤ l.getLastD 0 := by
  cases l with
  | nil => intro x hx; cases hx
  | cons a t =>
    intro x hx
    rw [List.getLastD_cons]
    exact leGetLastDAux t a hl x hx

theorem getDMapRange {β : Type} (f : Nat → β) (n i : Nat) (d : β) (hi : i < n) :
    ((List.range n).map f).getD i d = f i := by
  rw [List.getD_eq_getElem?_getD, List.getElem?_map, List.getElem?_range hi]
  rfl

/-- C8: after addInput probes a non-empty build, left, full and null-aware
anti joins have lookup.hits sized to the whole input with non-probed slots
still null and lookup.rows expanded to all of the input; every other mode
with a non-empty active set has lookup.hits of length at least
max(lookup.rows) + 1. -/
theorem claim_C8 (jt : JoinType) (inputSize : Nat) (nonNull keep : Nat → Bool)
    (probeHit stale : Nat → Option Nat) :
    (isOuterish jt = true →
      (addInputModel jt inputSize nonNull keep probeHit stale).lookupHits.length = inputSize ∧
      (addInputModel jt inputSize nonNull keep probeHit stale).lookupRows =
        List.range inputSize ∧
      (∀ i, i < inputSize → activeRow nonNull keep i = false →
        (addInputModel jt inputSize nonNull keep probeHit stale).lookupHits.getD i
          (some 0) = none)) ∧
    (isOuterish jt = false →
      ∀ x ∈ (addInputModel jt inputSize nonNull keep probeHit stale).lookupRows,
        x + 1 ≤ (addInputModel jt inputSize nonNull keep probeHit stale).lookupHits.length) := by
  constructor
  · intro houter
    refine ⟨?_, ?_, ?_⟩
    · simp [addInputModel, houter]
    · simp [addInputModel, houter]
    · intro i hi hact
      simp only [addInputModel, houter, if_true]
      rw [getDMapRange _ _ _ _ hi, hact]
      rfl
  · intro houter x hx
    simp only [addInputModel, houter, Bool.false_eq_true, if_false] at hx ⊢
    by_cases hempty : ((List.range inputSize).filter (activeRow nonNull keep)).isEmpty = true
    · simp [hempty] at hx
    · simp only [Bool.not_eq_true] at hempty
      simp only [hempty, Bool.false_eq_true, if_false] at hx ⊢
      have hle : x ≤ ((List.range inputSize).filter (activeRow nonNull keep)).getLastD 0 :=
        leGetLastD _ ((pairwiseLtFilterRange _ _).imp Nat.le_of_lt) x hx
      simpa using Nat.succ_le_succ hle

/-- C8 witness: a concrete left join input of size 2 with row 1 inactive,
and a concrete inner join input whose active rows are 0 and 2. -/
theorem claim_C8_witness :
    (addInputModel JoinType.left 2 (fun i => i == 0) (fun _ => true)
        (fun _ => some 7) (fun _ => some 9)).lookupHits.length = 2 ∧
    (addInputModel JoinType.left 2 (fun i => i == 0) (fun _ => true)
        (fun _ => some 7) (fun _ => some 9)).lookupHits.getD 1 (some 0) = none ∧
    3 ≤ (addInputModel JoinType.inner 3 (fun i => i != 1) (fun _ => true)
        (fun _ => some 7) (fun _ => some 9)).lookupHits.length :=
  ⟨((claim_C8 JoinType.left 2 (fun i => i == 0) (fun _ => true)
      (fun _ => some 7) (fun _ => some 9)).1 (by decide)).1,
   ((claim_C8 JoinType.left 2 (fun i => i == 0) (fun _ => true)
      (fun _ => some 7) (fun _ => some 9)).1 (by decide)).2.2 1 (by decide) (by decide),
   (claim_C8 JoinType.inner 3 (fun i => i != 1) (fun _ => true)
      (fun _ => some 7) (fun _ => some 9)).2 (by decide) 2 (by decide)⟩

/-- C9: for inner, left-semi, right and right-semi joins with a non-empty
build side, a batch whose every row has a null join key is dropped by
addInput without probing, and the next getOutput (before noMoreInput)
returns null. -/
theorem claim_C9 (jt : JoinType) (inputSize : Nat) (nonNull keep : Nat → Bool)
    (probeHit stale : Nat → Option Nat) (lastProbe : Bool) (buildSideBatch : Option Nat)
    (hjt : jt = JoinType.inner ∨ jt = JoinType.leftSemi ∨ jt = JoinType.right ∨
      jt = JoinType.rightSemi)
    (hnull : ∀ i, i < inputSize → nonNull i = false) :
    (addInputModel jt inputSize nonNull keep probeHit stale).inputRetained = false ∧
    (addInputModel jt inputSize nonNull keep probeHit stale).probedTable = false ∧
    getOutputNoInput jt false lastProbe buildSideBatch = (none, false) := by
  have houter : isOuterish jt = false := by
    rcases hjt with rfl | rfl | rfl | rfl <;> rfl
  have hempty : ((List.range inputSize).filter (activeRow nonNull keep)).isEmpty = true := by
    rw [List.isEmpty_iff, List.filter_eq_nil_iff]
    intro a ha
    have hlt : a < inputSize := List.mem_range.mp ha
    simp [activeRow, hnull a hlt]
  refine ⟨?_, ?_, ?_⟩
  · simp [addInputModel, houter, hempty]
  · simp [addInputModel, houter, hempty]
  · rfl

/-- C9 witness: inner join, two input rows, both with null keys. -/
theorem claim_C9_witness :
    (addInputModel JoinType.inner 2 (fun _ => false) (fun _ => true)
        (fun _ => some 7) (fun _ => some 9)).inputRetained = false ∧
    getOutputNoInput JoinType.inner false true (some 5) = (none, false) :=
  ⟨(claim_C9 JoinType.inner 2 (fun _ => false) (fun _ => true) (fun _ => some 7)
      (fun _ => some 9) true (some 5) (Or.inl rfl) (fun _ _ => rfl)).1,
   (claim_C9 JoinType.inner 2 (fun _ => false) (fun _ => true) (fun _ => some 7)
      (fun _ => some 9) true (some 5) (Or.inl rfl) (fun _ _ => rfl)).2.2⟩

/-! evalFilter bookkeeping lemmas: how each step changes numPassed, the
detector and tracker potentials, and the arrays beyond numPassed. -/

theorem applyMiss_numPassed (s : EFState) (m : Option Nat) :
    (applyMiss s m).numPassed = s.numPassed + (m.elim 0 fun _ => 1) := by
  cases m <;> simp [applyMiss, writeMiss]

theorem nmAdvance_phi (d : Option (Nat × Bool)) (row : Nat) (m : Bool) :
    ((nmAdvance d row m).1.elim 0 fun _ => 1) + phiD (nmAdvance d row m).2 ≤
      phiD d + (if m then 0 else 1) := by
  unfold nmAdvance
  cases d with
  | none => cases m <;> simp [phiD]
  | some rp =>
    obtain ⟨r, pr⟩ := rp
    by_cases hr : r = row <;> cases pr <;> cases m <;> simp [hr, phiD]

theorem nmFinish_phi (d : Option (Nat × Bool)) :
    ((nmFinish d).elim 0 fun _ => 1) ≤ phiD d := by
  unfold nmFinish
  cases d with
  | none => simp
  | some rp =>
    obtain ⟨r, pr⟩ := rp
    cases pr <;> simp [phiD]

theorem lsAdvance_phi (t : Option Nat) (row : Nat) :
    ((lsAdvance t row).1.elim 0 fun _ => 1) + phiT (lsAdvance t row).2 ≤ phiT t + 1 := by
  unfold lsAdvance
  cases t with
  | none => simp [phiT]
  | some c => by_cases hc : c = row <;> simp [hc, phiT]

theorem nmStep_bound (s : EFState) (d : Option (Nat × Bool)) (row : Nat) (m : Bool) :
    (applyMiss s (nmAdvance d row m).1).numPassed + phiD (nmAdvance d row m).2 ≤
      s.numPassed + phiD d + 1 := by
  have h1 := nmAdvance_phi d row m
  have h2 : (if m then 0 else 1) ≤ 1 := by cases m <;> simp
  rw [applyMiss_numPassed]
  omega

theorem nmStep_bound_passed (s : EFState) (d : Option (Nat × Bool)) (row : Nat) :
    (applyMiss s (nmAdvance d row true).1).numPassed + 1 + phiD (nmAdvance d row true).2 ≤
      s.numPassed + phiD d + 1 := by
  have h1 := nmAdvance_phi d row true
  have h2 : (if (true = true) then (0 : Nat) else 1) = 0 := rfl
  rw [h2] at h1
  rw [applyMiss_numPassed]
  omega

theorem lfStep_bound (p : Nat → Bool) (sd : EFState × Option (Nat × Bool)) (i : Nat) :
    (lfStep p sd i).1.numPassed + phiD (lfStep p sd i).2 ≤
      sd.1.numPassed + phiD sd.2 + 1 := by
  simp only [lfStep]
  cases hp : p i with
  | false =>
    simp only [Bool.false_eq_true, if_false]
    exact nmStep_bound sd.1 sd.2 (sd.1.map i) false
  | true =>
    rw [if_pos rfl]
    have h1 := nmStep_bound_passed sd.1 sd.2 (sd.1.map i)
    simp only [writePass]
    omega

theorem antiStep_bound (p : Nat → Bool) (bp : Nat → Nat → Bool) (a : AntiParams)
    (map0 : Nat → Nat) (numRows : Nat) (sd : EFState × Option (Nat × Bool)) (i : Nat) :
    (antiStep p bp a map0 numRows sd i).1.numPassed +
      phiD (antiStep p bp a map0 numRows sd i).2 ≤ sd.1.numPassed + phiD sd.2 + 1 := by
  simp only [antiStep]
  exact nmStep_bound sd.1 sd.2 (sd.1.map i) _

theorem lsStep_bound (p : Nat → Bool) (st : EFState × Option Nat) (i : Nat) :
    (lsStep p st i).1.numPassed + phiT (lsStep p st i).2 ≤
      st.1.numPassed + phiT st.2 + 1 := by
  simp only [lsStep]
  cases hp : p i with
  | false => simp
  | true =>
    rw [if_pos rfl]
    dsimp only
    have h1 := lsAdvance_phi st.2 (st.1.map i)
    rw [applyMiss_numPassed]
    omega

theorem dfStep_bound (p : Nat → Bool) (s : EFState) (i : Nat) :
    (dfStep p s i).numPassed ≤ s.numPassed + 1 := by
  unfold dfStep
  cases p i <;> simp [writePass]

theorem foldBound {σ : Type} (f : σ → Nat → σ) (c : σ → Nat)
    (h : ∀ s i, c (f s i) ≤ c s + 1) : ∀ (n : Nat) (s : σ),
      c ((List.range n).foldl f s) ≤ n + c s := by
  intro n
  induction n with
  | zero => intro s; simp
  | succ k ih =>
    intro s
    rw [foldlRangeSucc]
    have h2 := h ((List.range k).foldl f s) k
    have h3 := ih s
    omega

theorem applyMiss_frame (s : EFState) (m : Option Nat) (k : Nat)
    (hk : (applyMiss s m).numPassed ≤ k) :
    (applyMiss s m).map k = s.map k ∧ (applyMiss s m).outR k = s.outR k := by
  cases m with
  | none => exact ⟨rfl, rfl⟩
  | some row =>
    simp only [applyMiss, writeMiss] at hk ⊢
    have : k ≠ s.numPassed := by omega
    simp [this]

theorem writePass_frame (s : EFState) (i k : Nat) (hk : (writePass s i).numPassed ≤ k) :
    (writePass s i).map k = s.map k ∧ (writePass s i).outR k = s.outR k := by
  simp only [writePass] at hk ⊢
  have : k ≠ s.numPassed := by omega
  simp [this]

theorem applyMiss_mono (s : EFState) (m : Option Nat) :
    s.numPassed ≤ (applyMiss s m).numPassed := by
  rw [applyMiss_numPassed]
  omega

theorem lfStep_frame (p : Nat → Bool) (sd : EFState × Option (Nat × Bool)) (i k : Nat)
    (hk : (lfStep p sd i).1.numPassed ≤ k) :
    (lfStep p sd i).1.map k = sd.1.map k ∧ (lfStep p sd i).1.outR k = sd.1.outR k := by
  simp only [lfStep] at hk ⊢
  cases hp : p i with
  | false =>
    rw [hp] at hk
    simp only [Bool.false_eq_true, if_false] at hk ⊢
    exact applyMiss_frame _ _ _ hk
  | true =>
    rw [hp] at hk
    simp only [if_true] at hk ⊢
    have h1 := writePass_frame (applyMiss sd.1 (nmAdvance sd.2 (sd.1.map i) (p i)).1) i k
      (by rw [hp]; exact hk)
    rw [hp] at h1
    have h2 := applyMiss_frame sd.1 (nmAdvance sd.2 (sd.1.map i) (p i)).1 k
      (by rw [hp]; refine Nat.le_trans ?_ hk; simp [writePass])
    rw [hp] at h2
    exact ⟨(h1.1).trans h2.1, (h1.2).trans h2.2⟩

theorem antiStep_frame (p : Nat → Bool) (bp : Nat → Nat → Bool) (a : AntiParams)
    (map0 : Nat → Nat) (numRows : Nat) (sd : EFState × Option (Nat × Bool)) (i k : Nat)
    (hk : (antiStep p bp a map0 numRows sd i).1.numPassed ≤ k) :
    (antiStep p bp a map0 numRows sd i).1.map k = sd.1.map k ∧
      (antiStep p bp a map0 numRows sd i).1.outR k = sd.1.outR k := by
  simp only [antiStep] at hk ⊢
  exact applyMiss_frame _ _ _ hk

theorem lsStep_frame (p : Nat → Bool) (st : EFState × Option Nat) (i k : Nat)
    (hk : (lsStep p st i).1.numPassed ≤ k) :
    (lsStep p st i).1.map k = st.1.map k ∧ (lsStep p st i).1.outR k = st.1.outR k := by
  simp only [lsStep] at hk ⊢
  cases hp : p i with
  | false => exact ⟨rfl, rfl⟩
  | true =>
    rw [hp] at hk
    exact applyMiss_frame _ _ _ hk

theorem dfStep_frame (p : Nat → Bool) (s : EFState) (i k : Nat)
    (hk : (dfStep p s i).numPassed ≤ k) :
    (dfStep p s i).map k = s.map k ∧ (dfStep p s i).outR k = s.outR k := by
  simp only [dfStep] at hk ⊢
  cases hp : p i with
  | false => exact ⟨rfl, rfl⟩
  | true =>
    rw [hp] at hk
    exact writePass_frame _ _ _ hk

theorem foldFrame {σ : Type} (f : σ → Nat → σ) (st : σ → EFState)
    (hmono : ∀ s i, (st s).numPassed ≤ (st (f s i)).numPassed)
    (hframe : ∀ s i k, (st (f s i)).numPassed ≤ k →
      (st (f s i)).map k = (st s).map k ∧ (st (f s i)).outR k = (st s).outR k)
    (n : Nat) (s : σ) :
    ((st s).numPassed ≤ (st ((List.range n).foldl f s)).numPassed) ∧
    ∀ k, (st ((List.range n).foldl f s)).numPassed ≤ k →
      (st ((List.range n).foldl f s)).map k = (st s).map k ∧
      (st ((List.range n).foldl f s)).outR k = (st s).outR k := by
  induction n with
  | zero => exact ⟨Nat.le_refl _, fun k _ => ⟨rfl, rfl⟩⟩
  | succ m ih =>
    rw [foldlRangeSucc]
    constructor
    · exact Nat.le_trans ih.1 (hmono _ m)
    · intro k hk
      have hmid : (st ((List.range m).foldl f s)).numPassed ≤ k :=
        Nat.le_trans (hmono _ m) hk
      have h1 := hframe ((List.range m).foldl f s) m k hk
      have h2 := ih.2 k hmid
      exact ⟨h1.1.trans h2.1, h1.2.trans h2.2⟩

theorem phiD_le_one (d : Option (Nat × Bool)) : phiD d ≤ 1 := by
  unfold phiD
  cases d with
  | none => simp
  | some rp =>
    obtain ⟨r, pr⟩ := rp
    cases pr <;> simp

theorem phiT_le_one (t : Option Nat) : phiT t ≤ 1 := by
  unfold phiT
  cases t <;> simp

theorem lfStep_mono (p : Nat → Bool) (sd : EFState × Option (Nat × Bool)) (i : Nat) :
    sd.1.numPassed ≤ (lfStep p sd i).1.numPassed := by
  simp only [lfStep]
  cases hp : p i with
  | false => exact applyMiss_mono _ _
  | true =>
    rw [if_pos rfl]
    refine Nat.le_trans
      (applyMiss_mono sd.1 (nmAdvance sd.2 (sd.1.map i) true).1) ?_
    simp [writePass]

theorem antiStep_mono (p : Nat → Bool) (bp : Nat → Nat → Bool) (a : AntiParams)
    (map0 : Nat → Nat) (numRows : Nat) (sd : EFState × Option (Nat × Bool)) (i : Nat) :
    sd.1.numPassed ≤ (antiStep p bp a map0 numRows sd i).1.numPassed := by
  simp only [antiStep]
  exact applyMiss_mono _ _

theorem lsStep_mono (p : Nat → Bool) (st : EFState × Option Nat) (i : Nat) :
    st.1.numPassed ≤ (lsStep p st i).1.numPassed := by
  simp only [lsStep]
  cases hp : p i with
  | false => exact Nat.le_refl _
  | true =>
    rw [if_pos rfl]
    exact applyMiss_mono _ _

theorem dfStep_mono (p : Nat → Bool) (s : EFState) (i : Nat) :
    s.numPassed ≤ (dfStep p s i).numPassed := by
  simp only [dfStep]
  cases hp : p i with
  | false => exact Nat.le_refl _
  | true =>
    rw [if_pos rfl]
    simp [writePass]

theorem lfRun_bound (p : Nat → Bool) (numRows : Nat) (atEnd : Bool)
    (outR0 : Nat → Option Nat) (map0 : Nat → Nat) (d0 : Option (Nat × Bool)) :
    (lfRun p numRows atEnd ⟨outR0, map0, 0⟩ d0).1.numPassed ≤ numRows + 1 := by
  have hfold := foldBound (lfStep p) (fun sd => sd.1.numPassed + phiD sd.2)
    (fun s i => lfStep_bound p s i) numRows (⟨outR0, map0, 0⟩, d0)
  have hphi0 := phiD_le_one d0
  simp only at hfold
  unfold lfRun
  cases atEnd with
  | false =>
    simp only [Bool.false_eq_true, if_false]
    have hphi := Nat.zero_le
      (phiD ((List.range numRows).foldl (lfStep p) (⟨outR0, map0, 0⟩, d0)).2)
    omega
  | true =>
    rw [if_pos rfl]
    dsimp only
    rw [applyMiss_numPassed]
    have hfin := nmFinish_phi ((List.range numRows).foldl (lfStep p) (⟨outR0, map0, 0⟩, d0)).2
    omega

theorem antiRun_bound (p : Nat → Bool) (bp : Nat → Nat → Bool) (a : AntiParams)
    (numRows : Nat) (atEnd : Bool) (outR0 : Nat → Option Nat) (map0 : Nat → Nat)
    (d0 : Option (Nat × Bool)) :
    (antiRun p bp a numRows atEnd ⟨outR0, map0, 0⟩ d0).1.numPassed ≤ numRows + 1 := by
  have hfold := foldBound (antiStep p bp a map0 numRows)
    (fun sd => sd.1.numPassed + phiD sd.2)
    (fun s i => antiStep_bound p bp a map0 numRows s i) numRows (⟨outR0, map0, 0⟩, d0)
  have hphi0 := phiD_le_one d0
  simp only at hfold
  unfold antiRun
  cases atEnd with
  | false =>
    simp only [Bool.false_eq_true, if_false]
    have hphi := Nat.zero_le
      (phiD ((List.range numRows).foldl (antiStep p bp a map0 numRows)
        (⟨outR0, map0, 0⟩, d0)).2)
    omega
  | true =>
    rw [if_pos rfl]
    dsimp only
    rw [applyMiss_numPassed]
    have hfin := nmFinish_phi ((List.range numRows).foldl (antiStep p bp a map0 numRows)
      (⟨outR0, map0, 0⟩, d0)).2
    omega

theorem lsRun_bound (p : Nat → Bool) (numRows : Nat) (atEnd : Bool)
    (outR0 : Nat → Option Nat) (map0 : Nat → Nat) (t0 : Option Nat) :
    (lsRun p numRows atEnd ⟨outR0, map0, 0⟩ t0).1.numPassed ≤ numRows + 1 := by
  have hfold := foldBound (lsStep p) (fun st => st.1.numPassed + phiT st.2)
    (fun s i => lsStep_bound p s i) numRows (⟨outR0, map0, 0⟩, t0)
  have hphi0 := phiT_le_one t0
  simp only at hfold
  unfold lsRun
  cases atEnd with
  | false =>
    simp only [Bool.false_eq_true, if_false]
    have hphi := Nat.zero_le
      (phiT ((List.range numRows).foldl (lsStep p) (⟨outR0, map0, 0⟩, t0)).2)
    omega
  | true =>
    rw [if_pos rfl]
    dsimp only
    rw [applyMiss_numPassed]
    have hfin : ((((List.range numRows).foldl (lsStep p) (⟨outR0, map0, 0⟩, t0)).2).elim 0
        fun _ => 1) ≤ phiT ((List.range numRows).foldl (lsStep p) (⟨outR0, map0, 0⟩, t0)).2 := by
      cases ((List.range numRows).foldl (lsStep p) (⟨outR0, map0, 0⟩, t0)).2 <;> simp [phiT]
    omega

theorem dfRun_bound (p : Nat → Bool) (numRows : Nat) (outR0 : Nat → Option Nat)
    (map0 : Nat → Nat) :
    (dfRun p numRows ⟨outR0, map0, 0⟩).numPassed ≤ numRows + 1 := by
  have hfold := foldBound (dfStep p) (fun s => s.numPassed)
    (fun s i => dfStep_bound p s i) numRows ⟨outR0, map0, 0⟩
  simp only at hfold
  unfold dfRun
  omega

theorem lfRun_frame (p : Nat → Bool) (numRows : Nat) (atEnd : Bool)
    (outR0 : Nat → Option Nat) (map0 : Nat → Nat) (d0 : Option (Nat × Bool)) :
    ∀ k, (lfRun p numRows atEnd ⟨outR0, map0, 0⟩ d0).1.numPassed ≤ k →
      (lfRun p numRows atEnd ⟨outR0, map0, 0⟩ d0).1.map k = map0 k ∧
      (lfRun p numRows atEnd ⟨outR0, map0, 0⟩ d0).1.outR k = outR0 k := by
  have hf := foldFrame (lfStep p) (fun sd => sd.1) (fun s i => lfStep_mono p s i)
    (fun s i k hk => lfStep_frame p s i k hk) numRows (⟨outR0, map0, 0⟩, d0)
  intro k hk
  unfold lfRun at hk ⊢
  cases atEnd with
  | false =>
    simp only [Bool.false_eq_true, if_false] at hk ⊢
    exact hf.2 k hk
  | true =>
    rw [if_pos rfl] at hk ⊢
    dsimp only at hk ⊢
    have h1 := applyMiss_frame ((List.range numRows).foldl (lfStep p)
      (⟨outR0, map0, 0⟩, d0)).1 _ k hk
    have hk2 : ((List.range numRows).foldl (lfStep p) (⟨outR0, map0, 0⟩, d0)).1.numPassed ≤ k :=
      Nat.le_trans (applyMiss_mono _ _) hk
    have h2 := hf.2 k hk2
    exact ⟨h1.1.trans h2.1, h1.2.trans h2.2⟩

theorem antiRun_frame (p : Nat → Bool) (bp : Nat → Nat → Bool) (a : AntiParams)
    (numRows : Nat) (atEnd : Bool) (outR0 : Nat → Option Nat) (map0 : Nat → Nat)
    (d0 : Option (Nat × Bool)) :
    ∀ k, (antiRun p bp a numRows atEnd ⟨outR0, map0, 0⟩ d0).1.numPassed ≤ k →
      (antiRun p bp a numRows atEnd ⟨outR0, map0, 0⟩ d0).1.map k = map0 k ∧
      (antiRun p bp a numRows atEnd ⟨outR0, map0, 0⟩ d0).1.outR k = outR0 k := by
  have hf := foldFrame (antiStep p bp a map0 numRows) (fun sd => sd.1)
    (fun s i => antiStep_mono p bp a map0 numRows s i)
    (fun s i k hk => antiStep_frame p bp a map0 numRows s i k hk) numRows
    (⟨outR0, map0, 0⟩, d0)
  intro k hk
  unfold antiRun at hk ⊢
  cases atEnd with
  | false =>
    simp only [Bool.false_eq_true, if_false] at hk ⊢
    exact hf.2 k hk
  | true =>
    rw [if_pos rfl] at hk ⊢
    dsimp only at hk ⊢
    have h1 := applyMiss_frame ((List.range numRows).foldl (antiStep p bp a map0 numRows)
      (⟨outR0, map0, 0⟩, d0)).1 _ k hk
    have hk2 : ((List.range numRows).foldl (antiStep p bp a map0 numRows)
        (⟨outR0, map0, 0⟩, d0)).1.numPassed ≤ k :=
      Nat.le_trans (applyMiss_mono _ _) hk
    have h2 := hf.2 k hk2
    exact ⟨h1.1.trans h2.1, h1.2.trans h2.2⟩

theorem lsRun_frame (p : Nat → Bool) (numRows : Nat) (atEnd : Bool)
    (outR0 : Nat → Option Nat) (map0 : Nat → Nat) (t0 : Option Nat) :
    ∀ k, (lsRun p numRows atEnd ⟨outR0, map0, 0⟩ t0).1.numPassed ≤ k →
      (lsRun p numRows atEnd ⟨outR0, map0, 0⟩ t0).1.map k = map0 k ∧
      (lsRun p numRows atEnd ⟨outR0, map0, 0⟩ t0).1.outR k = outR0 k := by
  have hf := foldFrame (lsStep p) (fun st => st.1) (fun s i => lsStep_mono p s i)
    (fun s i k hk => lsStep_frame p s i k hk) numRows (⟨outR0, map0, 0⟩, t0)
  intro k hk
  unfold lsRun at hk ⊢
  cases atEnd with
  | false =>
    simp only [Bool.false_eq_true, if_false] at hk ⊢
    exact hf.2 k hk
  | true =>
    rw [if_pos rfl] at hk ⊢
    dsimp only at hk ⊢
    have h1 := applyMiss_frame ((List.range numRows).foldl (lsStep p)
      (⟨outR0, map0, 0⟩, t0)).1 _ k hk
    have hk2 : ((List.range numRows).foldl (lsStep p) (⟨outR0, map0, 0⟩, t0)).1.numPassed ≤ k :=
      Nat.le_trans (applyMiss_mono _ _) hk
    have h2 := hf.2 k hk2
    exact ⟨h1.1.trans h2.1, h1.2.trans h2.2⟩

theorem dfRun_frame (p : Nat → Bool) (numRows : Nat) (outR0 : Nat → Option Nat)
    (map0 : Nat → Nat) :
    ∀ k, (dfRun p numRows ⟨outR0, map0, 0⟩).numPassed ≤ k →
      (dfRun p numRows ⟨outR0, map0, 0⟩).map k = map0 k ∧
      (dfRun p numRows ⟨outR0, map0, 0⟩).outR k = outR0 k := by
  have hf := foldFrame (dfStep p) (fun s => s) (fun s i => dfStep_mono p s i)
    (fun s i k hk => dfStep_frame p s i k hk) numRows ⟨outR0, map0, 0⟩
  intro k hk
  unfold dfRun at hk ⊢
  exact hf.2 k hk


/-! C10. -/

/-- C10 counterexample: full outer join with a residual filter. The first
conjunct shows a real previous call (two pairs of probe row 3, both
failing, cursor not at end) leaves the detector holding a pending miss for
row 3. The second conjunct runs the next call on a single pair (probe row
5, build row 9) that passes the filter: evalFilter returns numPassed = 2,
exceeding numRows = 1, so the claimed bound numPassed ≤ numRows fails. -/
theorem claim_C10_counterexample :
    (evalFilterModel JoinType.full true (fun _ => some false) (fun _ _ => none)
        ⟨false, fun _ => false, fun _ => true, [], fun _ => false⟩ 2 false
        (fun _ => some 9) (fun _ => 3) none none).det = some (3, false) ∧
    ¬((evalFilterModel JoinType.full true (fun _ => some true) (fun _ _ => none)
        ⟨false, fun _ => false, fun _ => true, [], fun _ => false⟩ 1 false
        (fun _ => some 9) (fun _ => 5) (some (3, false)) none).st.numPassed ≤ 1) := by
  constructor
  · rfl
  · decide

/-- C10 amended: in every join mode, with or without a residual filter,
evalFilter returns numPassed with 0 ≤ numPassed ≤ numRows + 1 (the one
extra slot comes from a miss carried over from the previous call of the
same input batch), and it writes only indices [0, numPassed) of
outputRows and the row-number mapping: every index at or above the
returned numPassed still holds its previous contents. -/
theorem claim_C10 (jt : JoinType) (hasFilter : Bool) (res : Nat → Option Bool)
    (bev : Nat → Nat → Option Bool) (a : AntiParams) (numRows : Nat) (atEnd : Bool)
    (outR0 : Nat → Option Nat) (map0 : Nat → Nat) (d0 : Option (Nat × Bool))
    (t0 : Option Nat) :
    (evalFilterModel jt hasFilter res bev a numRows atEnd outR0 map0 d0 t0).st.numPassed ≤
      numRows + 1 ∧
    ∀ k,
      (evalFilterModel jt hasFilter res bev a numRows atEnd outR0 map0 d0 t0).st.numPassed ≤
        k →
      (evalFilterModel jt hasFilter res bev a numRows atEnd outR0 map0 d0 t0).st.map k =
        map0 k ∧
      (evalFilterModel jt hasFilter res bev a numRows atEnd outR0 map0 d0 t0).st.outR k =
        outR0 k := by
  unfold evalFilterModel evalFilterRun
  cases hasFilter with
  | false => exact ⟨Nat.le_succ numRows, fun k _ => ⟨rfl, rfl⟩⟩
  | true =>
    cases jt with
    | left =>
      exact ⟨lfRun_bound (pairPassed res) numRows atEnd outR0 map0 d0,
        lfRun_frame (pairPassed res) numRows atEnd outR0 map0 d0⟩
    | full =>
      exact ⟨lfRun_bound (pairPassed res) numRows atEnd outR0 map0 d0,
        lfRun_frame (pairPassed res) numRows atEnd outR0 map0 d0⟩
    | leftSemi =>
      exact ⟨lsRun_bound (pairPassed res) numRows atEnd outR0 map0 t0,
        lsRun_frame (pairPassed res) numRows atEnd outR0 map0 t0⟩
    | nullAwareAnti =>
      exact ⟨antiRun_bound (pairPassed res) (buildPassOf bev) a numRows atEnd outR0 map0 d0,
        antiRun_frame (pairPassed res) (buildPassOf bev) a numRows atEnd outR0 map0 d0⟩
    | inner =>
      exact ⟨dfRun_bound (pairPassed res) numRows outR0 map0,
        dfRun_frame (pairPassed res) numRows outR0 map0⟩
    | right =>
      exact ⟨dfRun_bound (pairPassed res) numRows outR0 map0,
        dfRun_frame (pairPassed res) numRows outR0 map0⟩
    | rightSemi =>
      exact ⟨dfRun_bound (pairPassed res) numRows outR0 map0,
        dfRun_frame (pairPassed res) numRows outR0 map0⟩

/-- C10 witness: at the counterexample input numPassed is within the
amended bound 1 + 1, and index 3 (at or above numPassed = 2) of the
mapping still holds its previous value 5. -/
theorem claim_C10_witness :
    (evalFilterModel JoinType.full true (fun _ => some true) (fun _ _ => none)
        ⟨false, fun _ => false, fun _ => true, [], fun _ => false⟩ 1 false
        (fun _ => some 9) (fun _ => 5) (some (3, false)) none).st.numPassed ≤ 1 + 1 ∧
    (evalFilterModel JoinType.full true (fun _ => some true) (fun _ _ => none)
        ⟨false, fun _ => false, fun _ => true, [], fun _ => false⟩ 1 false
        (fun _ => some 9) (fun _ => 5) (some (3, false)) none).st.map 3 = 5 :=
  ⟨(claim_C10 JoinType.full true (fun _ => some true) (fun _ _ => none)
      ⟨false, fun _ => false, fun _ => true, [], fun _ => false⟩ 1 false
      (fun _ => some 9) (fun _ => 5) (some (3, false)) none).1,
   ((claim_C10 JoinType.full true (fun _ => some true) (fun _ _ => none)
      ⟨false, fun _ => false, fun _ => true, [], fun _ => false⟩ 1 false
      (fun _ => some 9) (fun _ => 5) (some (3, false)) none).2 3 (by decide)).1⟩


/-! C2. -/

/-- C2 (code bug witness by evaluation): left outer join with a residual
filter. First conjuncts: a call processing two pairs of probe row 0, both
failing the filter, with the results cursor not at end, emits nothing and
leaves the detector holding a pending miss for row 0. Last conjunct: the
next call processes one pair (probe row 1, build row 7) whose filter
result is true; the pending miss for row 0 is flushed into slot 0 before
the passing pair is copied, and the copy then reads the just-overwritten
slot 0, so the call emits (0, nullptr) twice and the passing pair (1, 7)
is lost: a probe row whose every pair failed is emitted twice, and a pair
whose filter result is true is not kept. -/
theorem claim_C2_bug :
    (evalFilterModel JoinType.left true (fun _ => some false) (fun _ _ => none)
        ⟨false, fun _ => false, fun _ => true, [], fun _ => false⟩ 2 false
        (fun _ => some 5) (fun _ => 0) none none).det = some (0, false) ∧
    (evalFilterModel JoinType.left true (fun _ => some false) (fun _ _ => none)
        ⟨false, fun _ => false, fun _ => true, [], fun _ => false⟩ 2 false
        (fun _ => some 5) (fun _ => 0) none none).st.numPassed = 0 ∧
    emittedPairs (evalFilterModel JoinType.left true (fun _ => some true) (fun _ _ => none)
        ⟨false, fun _ => false, fun _ => true, [], fun _ => false⟩ 1 true
        (fun _ => some 7) (fun _ => 1) (some (0, false)) none).st =
      [(0, none), (0, none)] := by
  refine ⟨rfl, rfl, ?_⟩
  decide

/-! C4. -/

/-- C4 counterexample: null-aware anti join with a residual filter. One
pair: probe row 0 (all join keys non-null) against matching build row 3;
the decoded filter result of the pair is null; the filter does not
propagate nulls; the build side has no null-key rows, and the filter is
null on every build row as well. The claim says a null filter result
blocks anti-emission, yet the call emits probe row 0 (with a null build
pointer): the null result merely fails to count as a match, sending the
row to the null-key build-side test, which finds nothing and lets the row
through. -/
theorem claim_C4_counterexample :
    emittedPairs (evalFilterModel JoinType.nullAwareAnti true (fun _ => none)
        (fun _ _ => none) ⟨false, fun _ => false, fun _ => true, [3], fun _ => false⟩ 1 true
        (fun _ => some 3) (fun _ => 0) none none).st = [(0, none)] := by
  decide

/-- C4 amended: in every join mode with a residual filter, a decoded
filter result that is null is treated exactly as a false result, and is
never counted as a pass: replacing every null result of the per-pair
decode and of the build-side tests by false leaves the entire outcome of
evalFilter unchanged. In the null-aware anti join a null result therefore
does not count as a match; it does not by itself block anti-emission of
the probe row, which is instead re-tested against the null-key build rows
(or all build rows when its own key is null) and emitted when no such
test passes. -/
theorem claim_C4 (jt : JoinType) (hasFilter : Bool) (res : Nat → Option Bool)
    (bev : Nat → Nat → Option Bool) (a : AntiParams) (numRows : Nat) (atEnd : Bool)
    (outR0 : Nat → Option Nat) (map0 : Nat → Nat) (d0 : Option (Nat × Bool))
    (t0 : Option Nat) :
    evalFilterModel jt hasFilter (fun i => squashNull (res i))
      (fun j r => squashNull (bev j r)) a numRows atEnd outR0 map0 d0 t0 =
    evalFilterModel jt hasFilter res bev a numRows atEnd outR0 map0 d0 t0 := by
  unfold evalFilterModel
  have h1 : pairPassed (fun i => squashNull (res i)) = pairPassed res := by
    funext i
    show (squashNull (res i) == some true) = (res i == some true)
    cases res i with
    | none => rfl
    | some b => rfl
  have h2 : buildPassOf (fun j r => squashNull (bev j r)) = buildPassOf bev := by
    funext j r
    show (squashNull (bev j r) == some true) = (bev j r == some true)
    cases bev j r with
    | none => rfl
    | some b => rfl
  rw [h1, h2]


/-! C3: characterization of the left-semi branch. -/

theorem emittedRows_writeMiss (s : EFState) (row : Nat) :
    emittedRows (writeMiss s row) = emittedRows s ++ [row] := by
  unfold emittedRows writeMiss
  rw [List.range_succ, List.map_append]
  have h1 : List.map (fun k => if k = s.numPassed then row else s.map k)
      (List.range s.numPassed) = List.map s.map (List.range s.numPassed) := by
    refine List.map_congr_left ?_
    intro k hk
    have hklt : k < s.numPassed := List.mem_range.mp hk
    have hne : k ≠ s.numPassed := Nat.ne_of_lt hklt
    simp [hne]
  rw [h1]
  simp

theorem passVals_succ (p : Nat → Bool) (map0 : Nat → Nat) (n : Nat) :
    passVals p map0 (n + 1) = passVals p map0 n ++ (if p n then [map0 n] else []) := by
  unfold passVals
  rw [List.range_succ, List.filter_append, List.map_append]
  congr 1
  cases hp : p n <;> simp [List.filter_cons, hp]

theorem lsAdvFold_out : ∀ (l : List Nat) (out : List Nat) (t : Option Nat),
    (l.foldl lsAdvFold (out, t)).1 = out ++ (l.foldl lsAdvFold ([], t)).1 ∧
    (l.foldl lsAdvFold (out, t)).2 = (l.foldl lsAdvFold ([], t)).2 := by
  intro l
  induction l with
  | nil => intro out t; simp
  | cons r rest ih =>
    intro out t
    rw [List.foldl_cons, List.foldl_cons]
    have hstep1 : lsAdvFold (out, t) r =
        (out ++ (lsAdvance t r).1.toList, (lsAdvance t r).2) := rfl
    have hstep2 : lsAdvFold ([], t) r =
        ((lsAdvance t r).1.toList, (lsAdvance t r).2) := rfl
    rw [hstep1, hstep2]
    obtain ⟨ha, hb⟩ := ih (out ++ (lsAdvance t r).1.toList) (lsAdvance t r).2
    obtain ⟨hc, hd⟩ := ih ((lsAdvance t r).1.toList) (lsAdvance t r).2
    exact ⟨by rw [ha, hc, List.append_assoc], by rw [hb, hd]⟩

theorem lsFoldPure_collect : ∀ (l : List Nat) (t : Option Nat),
    (l.foldl lsAdvFold ([], t)).1 ++ ((l.foldl lsAdvFold ([], t)).2).toList =
      lsCollect t l := by
  intro l
  induction l with
  | nil => intro t; cases t <;> rfl
  | cons r rest ih =>
    intro t
    rw [List.foldl_cons]
    cases t with
    | none =>
      have hstep : lsAdvFold ([], (none : Option Nat)) r = ([], some r) := rfl
      rw [hstep, ih (some r)]
      rfl
    | some c =>
      by_cases hc : c = r
      · subst hc
        have hstep : lsAdvFold ([], some c) c = ([], some c) := by
          simp [lsAdvFold, lsAdvance]
        rw [hstep, ih (some c)]
        rw [lsCollect, if_pos rfl]
      · have hstep : lsAdvFold ([], some c) r = ([c], some r) := by
          simp [lsAdvFold, lsAdvance, hc]
        rw [hstep]
        obtain ⟨ha, hb⟩ := lsAdvFold_out rest [c] (some r)
        rw [ha, hb, List.append_assoc ([c])]
        rw [ih (some r)]
        rw [lsCollect, if_neg hc]
        rfl

theorem lsCollect_mem : ∀ (l : List Nat) (t : Option Nat) (x : Nat),
    x ∈ lsCollect t l ↔ t = some x ∨ x ∈ l := by
  intro l
  induction l with
  | nil =>
    intro t x
    cases t with
    | none => simp [lsCollect]
    | some c =>
      simp only [lsCollect, Option.toList, List.mem_singleton, List.not_mem_nil, or_false,
        Option.some.injEq]
      exact ⟨fun h => h.symm, fun h => h.symm⟩
  | cons r rest ih =>
    intro t x
    cases t with
    | none =>
      rw [show lsCollect none (r :: rest) = lsCollect (some r) rest from rfl, ih (some r) x]
      simp only [Option.some.injEq, List.mem_cons]
      constructor
      · rintro (h | h)
        · exact Or.inr (Or.inl h.symm)
        · exact Or.inr (Or.inr h)
      · rintro (h | h | h)
        · cases h
        · exact Or.inl h.symm
        · exact Or.inr h
    | some c =>
      by_cases hc : c = r
      · subst hc
        rw [lsCollect, if_pos rfl, ih (some c) x]
        simp only [Option.some.injEq, List.mem_cons]
        constructor
        · rintro (h | h)
          · exact Or.inl h
          · exact Or.inr (Or.inr h)
        · rintro (h | h | h)
          · exact Or.inl h
          · exact Or.inl h.symm
          · exact Or.inr h
      · rw [lsCollect, if_neg hc]
        simp only [List.mem_cons, ih (some r) x, Option.some.injEq]
        constructor
        · rintro (h | h | h)
          · exact Or.inl h.symm
          · exact Or.inr (Or.inl h.symm)
          · exact Or.inr (Or.inr h)
        · rintro (h | h | h)
          · exact Or.inl h.symm
          · exact Or.inr (Or.inl h.symm)
          · exact Or.inr (Or.inr h)

theorem lsCollect_chain : ∀ (l : List Nat) (c : Nat), List.Chain (· ≤ ·) c l →
    List.Chain' (· < ·) (lsCollect (some c) l) ∧ ∀ x ∈ lsCollect (some c) l, c ≤ x := by
  intro l
  induction l with
  | nil =>
    intro c _
    constructor
    · simp [lsCollect]
    · intro x hx
      simp only [lsCollect, Option.toList, List.mem_singleton] at hx
      exact hx ▸ Nat.le_refl c
  | cons r rest ih =>
    intro c hchain
    rw [List.chain_cons] at hchain
    by_cases hc : c = r
    · subst hc
      rw [lsCollect, if_pos rfl]
      exact ih c hchain.2
    · rw [lsCollect, if_neg hc]
      obtain ⟨ihchain, ihbound⟩ := ih r hchain.2
      have hcr : c < r := Nat.lt_of_le_of_ne hchain.1 hc
      constructor
      · refine List.Chain'.cons' ihchain ?_
        intro y hy
        have hym : y ∈ lsCollect (some r) rest := List.mem_of_mem_head? hy
        exact Nat.lt_of_lt_of_le hcr (ihbound y hym)
      · intro x hx
        rcases List.mem_cons.mp hx with rfl | hx2
        · exact Nat.le_refl x
        · exact Nat.le_trans (Nat.le_of_lt hcr) (ihbound x hx2)

theorem lsCollect_none_chain (l : List Nat) (h : List.Chain' (· ≤ ·) l) :
    List.Chain' (· < ·) (lsCollect none l) := by
  cases l with
  | nil => simp [lsCollect]
  | cons r rest =>
    rw [show lsCollect none (r :: rest) = lsCollect (some r) rest from rfl]
    exact (lsCollect_chain rest r h).1

theorem lsFold_spec (p : Nat → Bool) (outR0 : Nat → Option Nat) (map0 : Nat → Nat) :
    ∀ n : Nat,
      emittedRows ((List.range n).foldl (lsStep p) (⟨outR0, map0, 0⟩, none)).1 =
        ((passVals p map0 n).foldl lsAdvFold ([], none)).1 ∧
      ((List.range n).foldl (lsStep p) (⟨outR0, map0, 0⟩, none)).2 =
        ((passVals p map0 n).foldl lsAdvFold ([], none)).2 ∧
      ((List.range n).foldl (lsStep p) (⟨outR0, map0, 0⟩, none)).1.numPassed ≤ n ∧
      (∀ k, ((List.range n).foldl (lsStep p) (⟨outR0, map0, 0⟩, none)).1.numPassed ≤ k →
        ((List.range n).foldl (lsStep p) (⟨outR0, map0, 0⟩, none)).1.map k = map0 k) := by
  intro n
  induction n with
  | zero => exact ⟨rfl, rfl, Nat.le_refl 0, fun k _ => rfl⟩
  | succ m ih =>
    obtain ⟨ih1, ih2, ih3, ih4⟩ := ih
    rw [foldlRangeSucc, passVals_succ, List.foldl_append]
    cases hp : p m with
    | false =>
      have hstep : lsStep p ((List.range m).foldl (lsStep p) (⟨outR0, map0, 0⟩, none)) m =
          (List.range m).foldl (lsStep p) (⟨outR0, map0, 0⟩, none) := by
        simp [lsStep, hp]
      rw [hstep]
      simp only [Bool.false_eq_true, if_false, List.foldl_nil]
      exact ⟨ih1, ih2, Nat.le_succ_of_le ih3, ih4⟩
    | true =>
      have hrow : ((List.range m).foldl (lsStep p) (⟨outR0, map0, 0⟩, none)).1.map m =
          map0 m := ih4 m ih3
      have hstep : lsStep p ((List.range m).foldl (lsStep p) (⟨outR0, map0, 0⟩, none)) m =
          (applyMiss ((List.range m).foldl (lsStep p) (⟨outR0, map0, 0⟩, none)).1
            (lsAdvance ((List.range m).foldl (lsStep p) (⟨outR0, map0, 0⟩, none)).2
              (map0 m)).1,
           (lsAdvance ((List.range m).foldl (lsStep p) (⟨outR0, map0, 0⟩, none)).2
              (map0 m)).2) := by
        simp only [lsStep, hp, hrow, eq_self_iff_true, if_true]
      rw [hstep, ih2]
      simp only [hp, eq_self_iff_true, if_true, List.foldl_cons, List.foldl_nil]
      have hpure : lsAdvFold ((passVals p map0 m).foldl lsAdvFold ([], none)) (map0 m) =
          (((passVals p map0 m).foldl lsAdvFold ([], none)).1 ++
            (lsAdvance ((passVals p map0 m).foldl lsAdvFold ([], none)).2 (map0 m)).1.toList,
           (lsAdvance ((passVals p map0 m).foldl lsAdvFold ([], none)).2 (map0 m)).2) := rfl
      rw [hpure]
      cases hmiss : (lsAdvance ((passVals p map0 m).foldl lsAdvFold ([], none)).2
          (map0 m)).1 with
      | none =>
        refine ⟨?_, rfl, ?_, ?_⟩
        · rw [show applyMiss ((List.range m).foldl (lsStep p) (⟨outR0, map0, 0⟩, none)).1
              none = ((List.range m).foldl (lsStep p) (⟨outR0, map0, 0⟩, none)).1 from rfl]
          rw [ih1]
          simp
        · exact Nat.le_succ_of_le ih3
        · intro k hk
          exact ih4 k hk
      | some c =>
        refine ⟨?_, rfl, ?_, ?_⟩
        · rw [show applyMiss ((List.range m).foldl (lsStep p) (⟨outR0, map0, 0⟩, none)).1
              (some c) = writeMiss ((List.range m).foldl (lsStep p)
                (⟨outR0, map0, 0⟩, none)).1 c from rfl]
          rw [emittedRows_writeMiss, ih1]
          rfl
        · rw [show applyMiss ((List.range m).foldl (lsStep p) (⟨outR0, map0, 0⟩, none)).1
              (some c) = writeMiss ((List.range m).foldl (lsStep p)
                (⟨outR0, map0, 0⟩, none)).1 c from rfl]
          simp only [writeMiss]
          omega
        · intro k hk
          rw [show applyMiss ((List.range m).foldl (lsStep p) (⟨outR0, map0, 0⟩, none)).1
              (some c) = writeMiss ((List.range m).foldl (lsStep p)
                (⟨outR0, map0, 0⟩, none)).1 c from rfl] at hk ⊢
          simp only [writeMiss] at hk ⊢
          have hne : k ≠ ((List.range m).foldl (lsStep p)
              (⟨outR0, map0, 0⟩, none)).1.numPassed := by omega
          rw [if_neg hne]
          exact ih4 k (by omega)


theorem lsRun_out (p : Nat → Bool) (outR0 : Nat → Option Nat) (map0 : Nat → Nat) (n : Nat) :
    emittedRows (lsRun p n true ⟨outR0, map0, 0⟩ none).1 =
      lsCollect none (passVals p map0 n) := by
  obtain ⟨h1, h2, h3, h4⟩ := lsFold_spec p outR0 map0 n
  unfold lsRun
  rw [if_pos rfl]
  dsimp only
  rw [← lsFoldPure_collect (passVals p map0 n) none]
  cases ht : ((List.range n).foldl (lsStep p) (⟨outR0, map0, 0⟩, none)).2 with
  | none =>
    have hb2 : ((passVals p map0 n).foldl lsAdvFold ([], none)).2 = none := by
      rw [← h2, ht]
    rw [show applyMiss ((List.range n).foldl (lsStep p) (⟨outR0, map0, 0⟩, none)).1 none =
      ((List.range n).foldl (lsStep p) (⟨outR0, map0, 0⟩, none)).1 from rfl]
    rw [h1, hb2]
    simp
  | some c =>
    have hb2 : ((passVals p map0 n).foldl lsAdvFold ([], none)).2 = some c := by
      rw [← h2, ht]
    rw [show applyMiss ((List.range n).foldl (lsStep p) (⟨outR0, map0, 0⟩, none)).1 (some c) =
      writeMiss ((List.range n).foldl (lsStep p) (⟨outR0, map0, 0⟩, none)).1 c from rfl]
    rw [emittedRows_writeMiss, h1, hb2]
    rfl

/-! C3. -/

/-- C3: for a left-semi join with a residual filter, over all pairs listed
for one input batch (fresh tracker, cursor reaching the end, pairs in
ascending probe-row order as listJoinResults produces them), each probe
row appears at most once in the emitted output, and a probe row is
emitted iff some pair of it has a non-null true filter result — the row
qualifying at its first passing pair; probe rows with no passing pair are
not emitted. -/
theorem claim_C3 (res : Nat → Option Bool) (bev : Nat → Nat → Option Bool) (a : AntiParams)
    (numRows : Nat) (outR0 : Nat → Option Nat) (map0 : Nat → Nat)
    (hmono : ∀ i j, i ≤ j → j < numRows → map0 i ≤ map0 j) :
    (emittedRows (evalFilterModel JoinType.leftSemi true res bev a numRows true outR0 map0
        none none).st).Nodup ∧
    ∀ x, (x ∈ emittedRows (evalFilterModel JoinType.leftSemi true res bev a numRows true
        outR0 map0 none none).st ↔
      ∃ i, i < numRows ∧ map0 i = x ∧ pairPassed res i = true) := by
  have hout : emittedRows (evalFilterModel JoinType.leftSemi true res bev a numRows true
      outR0 map0 none none).st =
      lsCollect none (passVals (pairPassed res) map0 numRows) :=
    lsRun_out (pairPassed res) outR0 map0 numRows
  have hpw : (passVals (pairPassed res) map0 numRows).Pairwise (· ≤ ·) := by
    unfold passVals
    rw [List.pairwise_map]
    have hfil0 : ((List.range numRows).filter (pairPassed res)).Pairwise (· < ·) :=
      pairwiseLtFilterRange (pairPassed res) numRows
    refine hfil0.imp_of_mem ?_
    intro ida idb hma hmb hab
    have hb : idb < numRows := List.mem_range.mp (List.mem_of_mem_filter hmb)
    exact hmono ida idb (Nat.le_of_lt hab) hb
  have hchain : List.Chain' (· ≤ ·) (passVals (pairPassed res) map0 numRows) :=
    List.chain'_iff_pairwise.mpr hpw
  have hlt : List.Chain' (· < ·)
      (lsCollect none (passVals (pairPassed res) map0 numRows)) :=
    lsCollect_none_chain _ hchain
  constructor
  · rw [hout]
    exact ((List.chain'_iff_pairwise.mp hlt).imp fun h => Nat.ne_of_lt h)
  · intro x
    rw [hout, lsCollect_mem]
    constructor
    · rintro (h | h)
      · cases h
      · unfold passVals at h
        rcases List.mem_map.mp h with ⟨i, hi, rfl⟩
        rcases List.mem_filter.mp hi with ⟨hir, hip⟩
        exact ⟨i, List.mem_range.mp hir, rfl, hip⟩
    · rintro ⟨i, hilt, hmap, hpass⟩
      refine Or.inr ?_
      unfold passVals
      exact List.mem_map.mpr ⟨i, List.mem_filter.mpr ⟨List.mem_range.mpr hilt, hpass⟩, hmap⟩

/-- C3 witness: two pairs of probe row 0, both passing: row 0 is emitted
(once, by the Nodup conjunct of the theorem at the same input). -/
theorem claim_C3_witness :
    0 ∈ emittedRows (evalFilterModel JoinType.leftSemi true (fun _ => some true)
        (fun _ _ => none) ⟨false, fun _ => false, fun _ => true, [], fun _ => false⟩ 2 true
        (fun _ => some 7) (fun _ => 0) none none).st :=
  ((claim_C3 (fun _ => some true) (fun _ _ => none)
      ⟨false, fun _ => false, fun _ => true, [], fun _ => false⟩ 2 (fun _ => some 7)
      (fun _ => 0) (fun _ _ _ _ => Nat.le_refl 0)).2 0).mpr ⟨0, by decide, rfl, by decide⟩


/-! C6: where the values in the written prefix of outputRows come from. -/

theorem writeMiss_src (p : Nat → Bool) (outR0 : Nat → Option Nat) (numRows : Nat)
    (s : EFState) (row : Nat)
    (hfr : ∀ k, s.numPassed ≤ k → s.outR k = outR0 k)
    (hpre : ∀ k, k < s.numPassed → s.outR k = none ∨
      ∃ q, q < numRows ∧ p q = true ∧ s.outR k = outR0 q) :
    (∀ k, (writeMiss s row).numPassed ≤ k → (writeMiss s row).outR k = outR0 k) ∧
    (∀ k, k < (writeMiss s row).numPassed → (writeMiss s row).outR k = none ∨
      ∃ q, q < numRows ∧ p q = true ∧ (writeMiss s row).outR k = outR0 q) := by
  constructor
  · intro k hk
    simp only [writeMiss] at hk ⊢
    have hne : k ≠ s.numPassed := by omega
    rw [if_neg hne]
    exact hfr k (by omega)
  · intro k hk
    simp only [writeMiss] at hk ⊢
    by_cases hke : k = s.numPassed
    · rw [if_pos hke]
      exact Or.inl rfl
    · rw [if_neg hke]
      exact hpre k (by omega)

theorem writePass_src (p : Nat → Bool) (outR0 : Nat → Option Nat) (numRows : Nat)
    (s : EFState) (i : Nat) (hi : i < numRows) (hp : p i = true)
    (hfr : ∀ k, s.numPassed ≤ k → s.outR k = outR0 k)
    (hpre : ∀ k, k < s.numPassed → s.outR k = none ∨
      ∃ q, q < numRows ∧ p q = true ∧ s.outR k = outR0 q) :
    (∀ k, (writePass s i).numPassed ≤ k → (writePass s i).outR k = outR0 k) ∧
    (∀ k, k < (writePass s i).numPassed → (writePass s i).outR k = none ∨
      ∃ q, q < numRows ∧ p q = true ∧ (writePass s i).outR k = outR0 q) := by
  have hv : s.outR i = none ∨ ∃ q, q < numRows ∧ p q = true ∧ s.outR i = outR0 q := by
    by_cases hin : i < s.numPassed
    · exact hpre i hin
    · exact Or.inr ⟨i, hi, hp, hfr i (by omega)⟩
  constructor
  · intro k hk
    simp only [writePass] at hk ⊢
    have hne : k ≠ s.numPassed := by omega
    rw [if_neg hne]
    exact hfr k (by omega)
  · intro k hk
    simp only [writePass] at hk ⊢
    by_cases hke : k = s.numPassed
    · rw [if_pos hke]
      exact hv
    · rw [if_neg hke]
      exact hpre k (by omega)

theorem applyMiss_src (p : Nat → Bool) (outR0 : Nat → Option Nat) (numRows : Nat)
    (s : EFState) (m : Option Nat)
    (hfr : ∀ k, s.numPassed ≤ k → s.outR k = outR0 k)
    (hpre : ∀ k, k < s.numPassed → s.outR k = none ∨
      ∃ q, q < numRows ∧ p q = true ∧ s.outR k = outR0 q) :
    (∀ k, (applyMiss s m).numPassed ≤ k → (applyMiss s m).outR k = outR0 k) ∧
    (∀ k, k < (applyMiss s m).numPassed → (applyMiss s m).outR k = none ∨
      ∃ q, q < numRows ∧ p q = true ∧ (applyMiss s m).outR k = outR0 q) := by
  cases m with
  | none => exact ⟨hfr, hpre⟩
  | some row => exact writeMiss_src p outR0 numRows s row hfr hpre

theorem lfStep_src (p : Nat → Bool) (outR0 : Nat → Option Nat) (numRows : Nat)
    (sd : EFState × Option (Nat × Bool)) (i : Nat) (hi : i < numRows)
    (hfr : ∀ k, sd.1.numPassed ≤ k → sd.1.outR k = outR0 k)
    (hpre : ∀ k, k < sd.1.numPassed → sd.1.outR k = none ∨
      ∃ q, q < numRows ∧ p q = true ∧ sd.1.outR k = outR0 q) :
    (∀ k, (lfStep p sd i).1.numPassed ≤ k → (lfStep p sd i).1.outR k = outR0 k) ∧
    (∀ k, k < (lfStep p sd i).1.numPassed → (lfStep p sd i).1.outR k = none ∨
      ∃ q, q < numRows ∧ p q = true ∧ (lfStep p sd i).1.outR k = outR0 q) := by
  simp only [lfStep]
  have hmiss := applyMiss_src p outR0 numRows sd.1
    (nmAdvance sd.2 (sd.1.map i) (p i)).1 hfr hpre
  cases hp : p i with
  | false =>
    rw [hp] at hmiss
    simp only [Bool.false_eq_true, if_false]
    exact hmiss
  | true =>
    rw [hp] at hmiss
    rw [if_pos rfl]
    exact writePass_src p outR0 numRows _ i hi hp hmiss.1 hmiss.2

theorem dfStep_src (p : Nat → Bool) (outR0 : Nat → Option Nat) (numRows : Nat)
    (s : EFState) (i : Nat) (hi : i < numRows)
    (hfr : ∀ k, s.numPassed ≤ k → s.outR k = outR0 k)
    (hpre : ∀ k, k < s.numPassed → s.outR k = none ∨
      ∃ q, q < numRows ∧ p q = true ∧ s.outR k = outR0 q) :
    (∀ k, (dfStep p s i).numPassed ≤ k → (dfStep p s i).outR k = outR0 k) ∧
    (∀ k, k < (dfStep p s i).numPassed → (dfStep p s i).outR k = none ∨
      ∃ q, q < numRows ∧ p q = true ∧ (dfStep p s i).outR k = outR0 q) := by
  simp only [dfStep]
  cases hp : p i with
  | false => exact ⟨hfr, hpre⟩
  | true =>
    rw [if_pos rfl]
    exact writePass_src p outR0 numRows s i hi hp hfr hpre

theorem lfRun_src (p : Nat → Bool) (outR0 : Nat → Option Nat) (map0 : Nat → Nat)
    (numRows : Nat) (atEnd : Bool) (d0 : Option (Nat × Bool)) :
    (∀ k, (lfRun p numRows atEnd ⟨outR0, map0, 0⟩ d0).1.numPassed ≤ k →
      (lfRun p numRows atEnd ⟨outR0, map0, 0⟩ d0).1.outR k = outR0 k) ∧
    (∀ k, k < (lfRun p numRows atEnd ⟨outR0, map0, 0⟩ d0).1.numPassed →
      (lfRun p numRows atEnd ⟨outR0, map0, 0⟩ d0).1.outR k = none ∨
        ∃ q, q < numRows ∧ p q = true ∧
          (lfRun p numRows atEnd ⟨outR0, map0, 0⟩ d0).1.outR k = outR0 q) := by
  have hfold := @foldlInv Nat (EFState × Option (Nat × Bool))
    (fun sd => (∀ k, sd.1.numPassed ≤ k → sd.1.outR k = outR0 k) ∧
      (∀ k, k < sd.1.numPassed → sd.1.outR k = none ∨
        ∃ q, q < numRows ∧ p q = true ∧ sd.1.outR k = outR0 q))
    (lfStep p) (List.range numRows)
    (fun s i hi hP => lfStep_src p outR0 numRows s i (List.mem_range.mp hi) hP.1 hP.2)
    (⟨outR0, map0, 0⟩, d0)
    ⟨fun k _ => rfl, fun k hk => absurd hk (Nat.not_lt_zero k)⟩
  unfold lfRun
  cases atEnd with
  | false =>
    simp only [Bool.false_eq_true, if_false]
    exact hfold
  | true =>
    rw [if_pos rfl]
    dsimp only
    exact applyMiss_src p outR0 numRows _ _ hfold.1 hfold.2

theorem dfRun_src (p : Nat → Bool) (outR0 : Nat → Option Nat) (map0 : Nat → Nat)
    (numRows : Nat) :
    (∀ k, (dfRun p numRows ⟨outR0, map0, 0⟩).numPassed ≤ k →
      (dfRun p numRows ⟨outR0, map0, 0⟩).outR k = outR0 k) ∧
    (∀ k, k < (dfRun p numRows ⟨outR0, map0, 0⟩).numPassed →
      (dfRun p numRows ⟨outR0, map0, 0⟩).outR k = none ∨
        ∃ q, q < numRows ∧ p q = true ∧
          (dfRun p numRows ⟨outR0, map0, 0⟩).outR k = outR0 q) := by
  have hfold := @foldlInv Nat EFState
    (fun s => (∀ k, s.numPassed ≤ k → s.outR k = outR0 k) ∧
      (∀ k, k < s.numPassed → s.outR k = none ∨
        ∃ q, q < numRows ∧ p q = true ∧ s.outR k = outR0 q))
    (dfStep p) (List.range numRows)
    (fun s i hi hP => dfStep_src p outR0 numRows s i (List.mem_range.mp hi) hP.1 hP.2)
    ⟨outR0, map0, 0⟩
    ⟨fun k _ => rfl, fun k hk => absurd hk (Nat.not_lt_zero k)⟩
  unfold dfRun
  exact hfold


/-- C6: setProbedFlag runs only for right, full and right-semi joins, on
the outputRows prefix [0, numOut) left by evalFilter; a build row is
marked probed only if some (probe, build) pair containing it passed the
residual filter, or there is no filter; no other join mode produces
probed-flag writes. -/
theorem claim_C6 (jt : JoinType) (hasFilter : Bool) (res : Nat → Option Bool)
    (bev : Nat → Nat → Option Bool) (a : AntiParams) (numRows : Nat) (atEnd : Bool)
    (outR0 : Nat → Option Nat) (map0 : Nat → Nat) (d0 : Option (Nat × Bool))
    (t0 : Option Nat) :
    ((isRightJoin jt || isFullJoin jt || isRightSemiJoin jt) = false →
      probedFlagWrites jt
        (evalFilterModel jt hasFilter res bev a numRows atEnd outR0 map0 d0 t0).st = []) ∧
    (∀ r, r ∈ probedFlagWrites jt
        (evalFilterModel jt hasFilter res bev a numRows atEnd outR0 map0 d0 t0).st →
      ∃ i, i < numRows ∧ outR0 i = some r ∧
        (hasFilter = true → pairPassed res i = true)) := by
  constructor
  · intro hfam
    simp [probedFlagWrites, hfam]
  · intro r hr
    unfold probedFlagWrites at hr
    by_cases hfam : (isRightJoin jt || isFullJoin jt || isRightSemiJoin jt) = true
    · rw [if_pos hfam] at hr
      obtain ⟨k, hkmem, hkeq⟩ := List.mem_filterMap.mp hr
      have hklt := List.mem_range.mp hkmem
      cases hasFilter with
      | false =>
        refine ⟨k, hklt, hkeq, ?_⟩
        intro hf
        cases hf
      | true =>
        cases jt with
        | inner => exact absurd hfam (by decide)
        | left => exact absurd hfam (by decide)
        | leftSemi => exact absurd hfam (by decide)
        | nullAwareAnti => exact absurd hfam (by decide)
        | right =>
          have hsrc := dfRun_src (pairPassed res) outR0 map0 numRows
          have hklt2 : k < (dfRun (pairPassed res) numRows ⟨outR0, map0, 0⟩).numPassed := hklt
          rcases hsrc.2 k hklt2 with hnone | ⟨q, hq1, hq2, hq3⟩
          · have hno : (evalFilterModel JoinType.right true res bev a numRows atEnd outR0
                map0 d0 t0).st.outR k = none := hnone
            rw [hkeq] at hno
            exact Option.noConfusion hno
          · have hq3b : (evalFilterModel JoinType.right true res bev a numRows atEnd outR0
                map0 d0 t0).st.outR k = outR0 q := hq3
            rw [hkeq] at hq3b
            exact ⟨q, hq1, hq3b.symm, fun _ => hq2⟩
        | rightSemi =>
          have hsrc := dfRun_src (pairPassed res) outR0 map0 numRows
          have hklt2 : k < (dfRun (pairPassed res) numRows ⟨outR0, map0, 0⟩).numPassed := hklt
          rcases hsrc.2 k hklt2 with hnone | ⟨q, hq1, hq2, hq3⟩
          · have hno : (evalFilterModel JoinType.rightSemi true res bev a numRows atEnd outR0
                map0 d0 t0).st.outR k = none := hnone
            rw [hkeq] at hno
            exact Option.noConfusion hno
          · have hq3b : (evalFilterModel JoinType.rightSemi true res bev a numRows atEnd
                outR0 map0 d0 t0).st.outR k = outR0 q := hq3
            rw [hkeq] at hq3b
            exact ⟨q, hq1, hq3b.symm, fun _ => hq2⟩
        | full =>
          have hsrc := lfRun_src (pairPassed res) outR0 map0 numRows atEnd d0
          have hklt2 : k < (lfRun (pairPassed res) numRows atEnd
              ⟨outR0, map0, 0⟩ d0).1.numPassed := hklt
          rcases hsrc.2 k hklt2 with hnone | ⟨q, hq1, hq2, hq3⟩
          · have hno : (evalFilterModel JoinType.full true res bev a numRows atEnd outR0
                map0 d0 t0).st.outR k = none := hnone
            rw [hkeq] at hno
            exact Option.noConfusion hno
          · have hq3b : (evalFilterModel JoinType.full true res bev a numRows atEnd outR0
                map0 d0 t0).st.outR k = outR0 q := hq3
            rw [hkeq] at hq3b
            exact ⟨q, hq1, hq3b.symm, fun _ => hq2⟩
    · rw [if_neg hfam] at hr
      cases hr

/-- C6 witness: right join with no filter, one pair against build row 4:
build row 4 is traced to a listed pair. -/
theorem claim_C6_witness :
    ∃ i, i < 1 ∧ (fun _ => (some 4 : Option Nat)) i = some 4 ∧
      (false = true → pairPassed (fun _ => (none : Option Bool)) i = true) :=
  (claim_C6 JoinType.right false (fun _ => none) (fun _ _ => none)
    ⟨false, fun _ => false, fun _ => true, [], fun _ => false⟩ 1 true (fun _ => some 4)
    (fun _ => 0) none none).2 4 (by decide)

end Velox
